import Mathlib

/-!
Verification of the email-handler pipeline (`src/app.py`).

The development shallowly embeds the parts of `app.py` that the claims
concern: the per-message extraction and Redis-write logic of
`fetch_emails` (lines 84-113), the load/sort phase (lines 84-96), the
retry envelope (lines 62-69 and 122-131), the `/retrieveEmailCode`
endpoint (lines 169-192), and the IMAP commands a pass issues
(lines 72-120).

Python string primitives used by the source (`str.lower`, `str.split()`,
substring containment, `re.search` on the fixed activation pattern,
`html.unescape` restricted to the entities relevant here) are modelled
explicitly below, on ASCII inputs as used by the program.
-/

namespace EmailHandler

/-- Boolean infix test on character lists: models Python's `needle in hay`. -/
def listInfix (needle : List Char) : List Char → Bool
  | [] => needle.isPrefixOf []
  | c :: cs => needle.isPrefixOf (c :: cs) || listInfix needle cs

/-- Models Python's substring containment `needle in hay` on strings. -/
def strContains (hay needle : String) : Bool :=
  listInfix needle.toList hay.toList

/-- Models Python's `str.lower()` (ASCII case mapping, as used by the
source on addresses and subjects). -/
def pyLower (s : String) : String :=
  String.mk (s.data.map Char.toLower)

/-- Helper for `pySplit`: accumulates the current token (reversed). -/
def pySplitAux : List Char → List Char → List String
  | acc, [] => if acc.isEmpty then [] else [String.mk acc.reverse]
  | acc, c :: cs =>
    if c.isWhitespace then
      if acc.isEmpty then pySplitAux [] cs
      else String.mk acc.reverse :: pySplitAux [] cs
    else pySplitAux (c :: acc) cs

/-- Models Python's `str.split()` with no argument: split on whitespace
runs and drop empty tokens. -/
def pySplit (s : String) : List String :=
  pySplitAux [] s.data

/-- Models Python's `str.endswith(suffix)`. -/
def pyEndsWith (s suffix : String) : Bool :=
  suffix.data.isSuffixOf s.data

/-- Models Python's `html.unescape` on the character-entity subset that can
occur in the activation URLs this program extracts (named entities
`amp`, `lt`, `gt`, `quot`); all other text is passed through unchanged. -/
def htmlUnescapeChars : List Char → List Char
  | '&' :: 'a' :: 'm' :: 'p' :: ';' :: rest => '&' :: htmlUnescapeChars rest
  | '&' :: 'l' :: 't' :: ';' :: rest => '<' :: htmlUnescapeChars rest
  | '&' :: 'g' :: 't' :: ';' :: rest => '>' :: htmlUnescapeChars rest
  | '&' :: 'q' :: 'u' :: 'o' :: 't' :: ';' :: rest => '"' :: htmlUnescapeChars rest
  | c :: rest => c :: htmlUnescapeChars rest
  | [] => []

/-- Matching of one regex pattern character against one subject character
under `re.IGNORECASE` without `re.DOTALL`: `.` matches any character
except a newline, every other character matches case-insensitively
(ASCII, as in the source's pattern and inputs). -/
def patCharMatches (p c : Char) : Bool :=
  if p = '.' then c != '\n' else p.toLower == c.toLower

/-- Matches a literal pattern (with `.` wildcards) against a prefix of the
input; on success returns the consumed input characters and the rest. -/
def matchPat : List Char → List Char → Option (List Char × List Char)
  | [], hay => some ([], hay)
  | _ :: _, [] => none
  | p :: ps, c :: cs =>
    if patCharMatches p c then
      match matchPat ps cs with
      | some (con, rest) => some (c :: con, rest)
      | none => none
    else none

/-- Pattern characters of the literal `href="` part of the source regex. -/
def hrefPat : List Char := "href=\"".toList

/-- Pattern characters of the activation-URL prefix in the source regex
(`.` characters are wildcards under `re` semantics). -/
def activatePat : List Char :=
  "https://seller-us-accounts.tiktok.com/profile/activate-page".toList

/-- One anchored attempt of the source regex
`href="(https://seller-us-accounts.tiktok.com/profile/activate-page[^"]+)"`
at the start of the input: literal `href="`, then the URL prefix, then a
non-empty maximal run of non-quote characters (greedy `[^"]+`), then a
closing quote; returns capture group 1. -/
def tryMatchAt (hay : List Char) : Option (List Char) :=
  match matchPat hrefPat hay with
  | none => none
  | some (_, r1) =>
    match matchPat activatePat r1 with
    | none => none
    | some (pref, r2) =>
      let run := r2.takeWhile (fun c => c != '"')
      if run.isEmpty then none
      else
        match r2.drop run.length with
        | '"' :: _ => some (pref ++ run)
        | _ => none

/-- Models `re.search` with the source's activation pattern: try each start
position left to right, return the first match's capture group 1. -/
def reSearchActivation : List Char → Option (List Char)
  | [] => none
  | c :: cs =>
    match tryMatchAt (c :: cs) with
    | some r => some r
    | none => reSearchActivation cs

/-- One MIME part as the source uses it: `part.get_content_type()` and the
decoded text of `part.get_payload(decode=True).decode()`. -/
structure Part where
  contentType : String
  payload : String
deriving DecidableEq, Repr

/-- Parsed view of one fetched message, as built by `fetch_emails`
lines 86-94: the decoded subject, the raw `To` header (`None` when the
header is absent), the result of `email.utils.parsedate_to_datetime` on
the `Date` header (`none` when the header is absent or unparseable, in
which case the library call raises), and the body parts in `msg.walk()`
order. -/
structure Msg where
  subject : String
  toHeader : Option String
  dateParsed : Option Int
  parts : List Part
deriving DecidableEq, Repr

/-- One Redis `set(key, value, ex=...)` call issued by the pipeline. -/
structure Write where
  key : String
  value : String
  ex : Nat
deriving DecidableEq, Repr

/-- The body of the per-message processing loop of `fetch_emails`
(lines 99-113): compute `msg['To'].lower()` (an `AttributeError` when the
header is absent), then classify by subject substring and produce the
list of Redis writes the message causes, in order.  The verification
branch takes `email_subject.split()[0]` (an `IndexError` when the subject
has no tokens); the activation branch walks the parts and writes once per
HTML part whose body matches the activation regex. -/
def msgWrites (m : Msg) : Except String (List Write) :=
  match m.toHeader with
  | none => .error "AttributeError: NoneType object has no attribute lower"
  | some toAddr =>
    let email_to := pyLower toAddr
    if strContains (pyLower m.subject) "verification code" then
      match pySplit m.subject with
      | [] => .error "IndexError: list index out of range"
      | code :: _ => .ok [⟨email_to ++ "-verify", code, 172800⟩]
    else if strContains (pyLower m.subject) "activate your account" then
      .ok ((m.parts.filter (fun p => p.contentType == "text/html")).filterMap
        (fun p => (reSearchActivation p.payload.toList).map
          (fun u => ⟨email_to ++ "-activate", String.mk (htmlUnescapeChars u), 172800⟩)))
    else .ok []

/-- The key-value store, as the pipeline observes it through `get`. -/
def Store := String → Option String

/-- The empty store. -/
def emptyStore : Store := fun _ => none

/-- Effect of one Redis `set` on the store: unconditional overwrite. -/
def applyWrite (s : Store) (w : Write) : Store :=
  fun k => if k == w.key then some w.value else s k

/-- Effect of a sequence of `set` calls, applied in order. -/
def applyWrites (s : Store) (ws : List Write) : Store :=
  ws.foldl applyWrite s

/-- Processing of one message against the store: apply its writes, or
report the raised exception with the store unchanged by this message. -/
def processMsg (s : Store) (m : Msg) : Store × Option String :=
  match msgWrites m with
  | .error e => (s, some e)
  | .ok ws => (applyWrites s ws, none)

/-- The loading loop of `fetch_emails` lines 84-94: each fetched message's
`Date` header is parsed by `email.utils.parsedate_to_datetime`, which
raises on a missing or malformed header; the first such failure aborts
the loop (and hence the pass) before any processing.  On success the
result pairs each message with its parsed timestamp, in server order. -/
def loadEmails : List Msg → Except String (List (Int × Msg))
  | [] => .ok []
  | m :: rest =>
    match m.dateParsed with
    | none => .error "parsedate_to_datetime raised on missing or malformed Date"
    | some d =>
      match loadEmails rest with
      | .error e => .error e
      | .ok l => .ok ((d, m) :: l)

/-- Comparison used by `email_list.sort(key=lambda x: x[0])`. -/
def dateLe (a b : Int × Msg) : Bool := a.1 ≤ b.1

/-- The `email_list.sort(key=lambda x: x[0], reverse=False)` step: a stable
ascending sort on the parsed timestamp. -/
def sortByDate (l : List (Int × Msg)) : List (Int × Msg) :=
  l.mergeSort dateLe

/-- The processing loop over the sorted list (lines 99-113): messages are
handled in order; a raised exception aborts the loop at that message,
leaving earlier writes in place and later messages unprocessed. -/
def processSorted (s : Store) : List (Int × Msg) → Store × Option String
  | [] => (s, none)
  | (_, m) :: rest =>
    match msgWrites m with
    | .error e => (s, some e)
    | .ok ws => processSorted (applyWrites s ws) rest

/-- One try-block body of `fetch_emails` (lines 72-120) given the messages
the server returned for the search, in server order: an empty id list
returns at once (line 77-79); otherwise load and parse all messages,
sort them oldest-first, and process them in that order.  The second
component is the exception that aborted the pass, if any. -/
def runPass (msgs : List Msg) (s : Store) : Store × Option String :=
  match msgs with
  | [] => (s, none)
  | _ :: _ =>
    match loadEmails msgs with
    | .error e => (s, some e)
    | .ok l => processSorted s (sortByDate l)

/-- The `/retrieveEmailCode` handler (lines 169-192).  The `email` query
parameter is `none` when absent; Python's `if not email_to` also treats
the empty string as missing, and `if not verify_code` treats an empty
stored string like an absent key.  `redisGet` is the store's `get` at
request time (so a TTL-expired key yields `none`).  The result is the
JSON body as a field list together with the HTTP status code. -/
def retrieve_email_code (emailParam : Option String)
    (redisGet : String → Option String) : List (String × String) × Nat :=
  match emailParam with
  | none => ([("error", "Email parameter is required")], 400)
  | some email_to =>
    if email_to == "" then ([("error", "Email parameter is required")], 400)
    else if pyEndsWith email_to "-verify" then
      match redisGet email_to with
      | none => ([("error", "Verification code not found")], 404)
      | some v =>
        if v == "" then ([("error", "Verification code not found")], 404)
        else ([("verification_code", v)], 200)
    else if pyEndsWith email_to "-activate" then
      match redisGet email_to with
      | none => ([("error", "Activation link not found")], 404)
      | some v =>
        if v == "" then ([("error", "Activation link not found")], 404)
        else ([("activation_link", v)], 200)
    else ([("error", "Invalid email address format")], 400)

/-- Outcome of one attempt of the retry loop of `fetch_emails`:
`connect_to_imap` returned `None`, or the try block raised, or the try
block ran to its `break`. -/
inductive AttemptOutcome where
  | noSession
  | passFail
  | passOk
deriving DecidableEq, Repr

/-- Observable events of one attempt of the retry loop. -/
inductive Ev where
  | connectFailLog
  | errorLog
  | sleep (seconds : Nat)
  | failedAllLog
  | logout
  | passDone
deriving DecidableEq, Repr

/-- Source constant `retries = 3` (line 62). -/
def retriesBudget : Nat := 3

/-- Source constant `retry_delay = 5` (line 63). -/
def retryDelaySeconds : Nat := 5

/-- Events of attempt number `attempt` (0-based) of `fetch_emails` given
its outcome, straight from lines 65-131: a failed connection logs and
`continue`s (no sleep, no logout — the session is `None` and the try
block was never entered); a successful pass breaks after the `finally`
logout; a raised pass logs the error, sleeps `retry_delay` seconds only
when `attempt < retries - 1`, logs the final failure otherwise, then the
`finally` logout runs. -/
def attemptEvents (attempt : Nat) (o : AttemptOutcome) : List Ev :=
  match o with
  | .noSession => [.connectFailLog]
  | .passOk => [.passDone, .logout]
  | .passFail =>
    if attempt < retriesBudget - 1 then [.errorLog, .sleep retryDelaySeconds, .logout]
    else [.errorLog, .failedAllLog, .logout]

/-- The `for attempt in range(retries)` loop, driven by the outcome each
attempt would have; returns the per-attempt event lists of the attempts
actually executed (the loop breaks after a successful pass). -/
def runAttempts (f : Nat → AttemptOutcome) : Nat → Nat → List (List Ev)
  | 0, _ => []
  | fuel + 1, attempt =>
    attemptEvents attempt (f attempt) ::
      (match f attempt with
       | .passOk => []
       | .noSession => runAttempts f fuel (attempt + 1)
       | .passFail => runAttempts f fuel (attempt + 1))

/-- Per-attempt event trace of one `fetch_emails` invocation. -/
def fetchEmailsTrace (f : Nat → AttemptOutcome) : List (List Ev) :=
  runAttempts f retriesBudget 0

/-- One message as the IMAP server holds it: identifier, `\Seen` and
`\Deleted` flags, and whether it matches the pipeline's search criteria
(unread status is tracked separately in `seen`). -/
structure MailMsg where
  uid : Nat
  seen : Bool
  deleted : Bool
  matchesQuery : Bool
deriving DecidableEq, Repr

/-- IMAP commands the program can issue over a session. -/
inductive ImapCmd where
  | selectFolder (folder : String)
  | searchCmd (query : String)
  | fetchCmd (uid : Nat)
  | storeFlag (uid : Nat) (flag : String)
  | expunge
  | logout
deriving DecidableEq, Repr

/-- Effect of one IMAP command on the mailbox: `STORE +FLAGS` sets the
named flag, `EXPUNGE` removes deleted messages, and a fetch marks the
fetched message seen — the source fetches with `'(RFC822)'` (line 85), a
non-PEEK item that RFC 3501 defines to implicitly set `\Seen` on
retrieval; select, search and logout leave the mailbox unchanged. -/
def applyCmd (mb : List MailMsg) : ImapCmd → List MailMsg
  | .storeFlag uid flag =>
    mb.map (fun mm =>
      if mm.uid == uid then
        if flag == "\\Seen" then { mm with seen := true }
        else if flag == "\\Deleted" then { mm with deleted := true }
        else mm
      else mm)
  | .expunge => mb.filter (fun mm => !mm.deleted)
  | .fetchCmd uid =>
    mb.map (fun mm => if mm.uid == uid then { mm with seen := true } else mm)
  | _ => mb

/-- Effect of a command sequence on the mailbox. -/
def applyCmds (mb : List MailMsg) (cs : List ImapCmd) : List MailMsg :=
  cs.foldl applyCmd mb

/-- Identifiers the server returns for the pipeline's search: unseen
messages matching the criteria (line 74). -/
def searchUnseen (mb : List MailMsg) : List Nat :=
  (mb.filter (fun mm => !mm.seen && mm.matchesQuery)).map (fun mm => mm.uid)

/-- IMAP commands one non-empty `fetch_emails` pass issues (lines 72-131):
select, search, one fetch per returned identifier, then logout.  The
mark-as-seen block (lines 115-119) is commented out in the source, so no
`storeFlag` command appears; `clean_folders` is never scheduled
(line 197), so no `expunge` is issued by the pipeline either. -/
def fetchPassCmds (ids : List Nat) : List ImapCmd :=
  [.selectFolder "inbox",
   .searchCmd "(UNSEEN (OR (SUBJECT \"verification code\") (BODY \"Activate Your Account\")))"]
    ++ ids.map ImapCmd.fetchCmd ++ [.logout]

/-- Value of the last write to key `k` in a write sequence, if any. -/
def lookupLast (ws : List Write) (k : String) : Option String :=
  match ws with
  | [] => none
  | w :: rest =>
    match lookupLast rest k with
    | some v => some v
    | none => if k == w.key then some w.value else none

/-- Writes a message causes (empty when processing it raises). -/
def wsOf (m : Msg) : List Write :=
  match msgWrites m with
  | .ok ws => ws
  | .error _ => []

/-- Final value a single message's processing leaves under key `k`. -/
def msgFinalVal (m : Msg) (k : String) : Option String :=
  lookupLast (wsOf m) k

/-- Whether processing a message writes (at least once) to key `k`. -/
def writesKey (m : Msg) (k : String) : Bool :=
  (msgFinalVal m k).isSome

/-- All writes a list of dated messages causes, in processing order. -/
def passWrites : List (Int × Msg) → List Write
  | [] => []
  | (_, m) :: rest => wsOf m ++ passWrites rest

end EmailHandler

namespace EmailHandler

theorem applyWrites_apply (ws : List Write) (s : Store) (k : String) :
    applyWrites s ws k =
      match lookupLast ws k with
      | some v => some v
      | none => s k := by
  induction ws generalizing s with
  | nil => rfl
  | cons w rest ih =>
    simp only [applyWrites, List.foldl_cons] at ih ⊢
    rw [ih]
    cases h : lookupLast rest k with
    | some v => simp [lookupLast, h]
    | none =>
      simp only [lookupLast, h, applyWrite]
      cases hk : k == w.key <;> simp

theorem applyWrites_append (s : Store) (a b : List Write) :
    applyWrites s (a ++ b) = applyWrites (applyWrites s a) b := by
  simp [applyWrites, List.foldl_append]

theorem lookupLast_append (a b : List Write) (k : String) :
    lookupLast (a ++ b) k =
      match lookupLast b k with
      | some v => some v
      | none => lookupLast a k := by
  induction a with
  | nil =>
    simp only [List.nil_append]
    cases h : lookupLast b k <;> simp [lookupLast, h]
  | cons w rest ih =>
    simp only [List.cons_append, lookupLast, List.append_eq]
    rw [ih]
    cases hb : lookupLast b k <;> cases hr : lookupLast rest k <;>
      simp [lookupLast, hb, hr]

theorem processSorted_ok (l : List (Int × Msg)) (s : Store)
    (hok : ∀ p ∈ l, ∃ ws, msgWrites p.2 = .ok ws) :
    processSorted s l = (applyWrites s (passWrites l), none) := by
  induction l generalizing s with
  | nil => simp [processSorted, passWrites, applyWrites]
  | cons p rest ih =>
    obtain ⟨d, m⟩ := p
    obtain ⟨ws, hws⟩ := hok (d, m) (List.mem_cons_self _ _)
    have hwsOf : wsOf m = ws := by simp [wsOf, hws]
    simp only [processSorted, hws, passWrites, hwsOf, applyWrites_append]
    exact ih (applyWrites s ws) (fun q hq => hok q (List.mem_cons_of_mem _ hq))

/-- C8: processing the same message twice leaves the same store: Redis
`set` is an unconditional overwrite, so re-extraction of an
already-processed message is idempotent on the store (this also holds
when processing the message raises, in which case it writes nothing
either time). -/
theorem processMsg_idempotent (m : Msg) (s : Store) :
    (processMsg (processMsg s m).1 m).1 = (processMsg s m).1 := by
  cases h : msgWrites m with
  | error e => simp [processMsg, h]
  | ok ws =>
    simp only [processMsg, h]
    funext k
    rw [applyWrites_apply ws (applyWrites s ws) k, applyWrites_apply ws s k]
    cases lookupLast ws k <;> simp

/-- C9: a message whose subject matches neither classification rule causes
no store mutation, and a pass whose search returned zero identifiers
returns at once, successfully, without touching the store. -/
theorem no_match_no_mutation (m : Msg) (s : Store)
    (h1 : strContains (pyLower m.subject) "verification code" = false)
    (h2 : strContains (pyLower m.subject) "activate your account" = false) :
    (processMsg s m).1 = s ∧ runPass [] s = (s, none) := by
  constructor
  · unfold processMsg msgWrites
    cases m.toHeader <;> simp [h1, h2, applyWrites]
  · rfl

theorem no_match_no_mutation_witness :
    strContains (pyLower "Your receipt from last week") "verification code" = false ∧
    (processMsg emptyStore ⟨"Your receipt from last week", some "a@b.com", some 3, []⟩).1
      = emptyStore :=
  ⟨by decide,
   (no_match_no_mutation ⟨"Your receipt from last week", some "a@b.com", some 3, []⟩
     emptyStore (by decide) (by decide)).1⟩

/-- C2: for a message whose decoded subject contains "verification code"
(case-insensitively) and whose To header is present, the extracted code
is the first whitespace-delimited token of the subject, stored under the
lower-cased To address with suffix `-verify` and a 172800-second TTL. -/
theorem verification_extraction (m : Msg) (toAddr code : String)
    (rest : List String)
    (hto : m.toHeader = some toAddr)
    (hsub : strContains (pyLower m.subject) "verification code" = true)
    (hsplit : pySplit m.subject = code :: rest) :
    msgWrites m = .ok [⟨pyLower toAddr ++ "-verify", code, 172800⟩] := by
  unfold msgWrites
  rw [hto]
  simp [hsub, hsplit]

/-- Concrete message for the spec's verification end-to-end scenario. -/
def mC2 : Msg :=
  ⟨"482913 is your verification code", some "USER@Example.com", some 10, []⟩

theorem verification_extraction_witness :
    strContains (pyLower "482913 is your verification code")
        "verification code" = true ∧
    msgWrites mC2 = .ok [⟨"user@example.com-verify", "482913", 172800⟩] := by
  constructor
  · decide
  · have h := verification_extraction mC2 "USER@Example.com" "482913"
      ["is", "your", "verification", "code"] rfl (by decide) (by decide)
    have hk : pyLower "USER@Example.com" ++ "-verify" = "user@example.com-verify" := by
      decide
    rw [hk] at h
    exact h

/-- C3: for a message whose subject lacks "verification code" but contains
"activate your account" (case-insensitively) and whose To header is
present, every write the message causes goes to the single key
`<lower-cased recipient>-activate` with a 172800-second TTL, and its
value is the HTML-entity-unescaped capture of the activation regex from
the decoded text of some HTML part; when no HTML part matches the
pattern, the message causes no write at all. -/
theorem activation_extraction (m : Msg) (toAddr : String)
    (hto : m.toHeader = some toAddr)
    (hnv : strContains (pyLower m.subject) "verification code" = false)
    (hact : strContains (pyLower m.subject) "activate your account" = true) :
    ∃ ws, msgWrites m = .ok ws ∧
      (∀ w ∈ ws, w.key = pyLower toAddr ++ "-activate" ∧ w.ex = 172800 ∧
        ∃ p ∈ m.parts, p.contentType = "text/html" ∧
          ∃ u, reSearchActivation p.payload.toList = some u ∧
            w.value = String.mk (htmlUnescapeChars u)) ∧
      ((∀ p ∈ m.parts, p.contentType = "text/html" →
          reSearchActivation p.payload.toList = none) → ws = []) := by
  have hmw : msgWrites m
      = .ok ((m.parts.filter (fun p => p.contentType == "text/html")).filterMap
          (fun p => (reSearchActivation p.payload.toList).map
            (fun u => ⟨pyLower toAddr ++ "-activate",
              String.mk (htmlUnescapeChars u), 172800⟩))) := by
    unfold msgWrites
    rw [hto]
    simp [hnv, hact]
  refine ⟨_, hmw, ?_, ?_⟩
  · intro w hw
    rw [List.mem_filterMap] at hw
    obtain ⟨p, hpf, hmap⟩ := hw
    rw [List.mem_filter] at hpf
    obtain ⟨hp, hct⟩ := hpf
    cases hsearch : reSearchActivation p.payload.toList with
    | none => rw [hsearch] at hmap; cases hmap
    | some u =>
      rw [hsearch] at hmap
      simp only [Option.map_some'] at hmap
      cases hmap
      exact ⟨rfl, rfl, p, hp, by simpa using hct, u, hsearch, rfl⟩
  · intro hall
    rw [List.filterMap_eq_nil_iff]
    intro p hp
    rw [List.mem_filter] at hp
    obtain ⟨hp1, hp2⟩ := hp
    rw [hall p hp1 (by simpa using hp2)]
    rfl

/-- Plain-text part used in the activation scenario. -/
def pPlain : Part := ⟨"text/plain", "hello"⟩

/-- HTML part used in the activation scenario, with an entity-escaped
activation URL. -/
def pHtml : Part :=
  ⟨"text/html",
   "<a href=\"https://seller-us-accounts.tiktok.com/profile/activate-page?token=abc&amp;x=1\">go</a>"⟩

/-- Concrete message for the spec's activation end-to-end scenario. -/
def mAct : Msg := ⟨"Activate Your Account", some "User@Example.com", some 20, [pPlain, pHtml]⟩

/-- Write produced in the activation scenario (entity-unescaped URL). -/
def wAct : Write :=
  ⟨"user@example.com-activate",
   "https://seller-us-accounts.tiktok.com/profile/activate-page?token=abc&x=1", 172800⟩

theorem activation_extraction_witness :
    strContains (pyLower mAct.subject) "activate your account" = true ∧
    msgWrites mAct = .ok [wAct] ∧
    wAct.key = pyLower "User@Example.com" ++ "-activate" ∧ wAct.ex = 172800 := by
  obtain ⟨ws, hws, hprops, _⟩ :=
    activation_extraction mAct "User@Example.com" rfl (by decide) (by decide)
  have hcomp : msgWrites mAct = .ok [wAct] := by rfl
  have hwseq : ws = [wAct] := by
    have := hws.symm.trans hcomp
    injection this
  have hwmem : wAct ∈ ws := by
    rw [hwseq]
    exact List.mem_singleton_self _
  exact ⟨by decide, hcomp, (hprops wAct hwmem).1, (hprops wAct hwmem).2.1⟩

/-- C4 counterexample: a `GET` whose `email` parameter is an unsuffixed
address returns 400 `Invalid email address format`, not 200 with both
stored values, even when the store holds values for every key. -/
theorem retrieve_unsuffixed_cex :
    retrieve_email_code (some "user@example.com") (fun _ => some "482913")
      = ([("error", "Invalid email address format")], 400) ∧ (400 : Nat) ≠ 200 := by
  constructor
  · rfl
  · decide

/-- C4 as amended: a missing (or empty) `email` parameter yields 400; a
`-verify` or `-activate` key yields 200 with the stored value when a
non-empty value is present and 404 when the store has none (which
includes TTL expiry, since an expired key reads as absent); any other
parameter — including a bare unsuffixed address — yields 400
`Invalid email address format` (the endpoint never returns both values). -/
theorem retrieve_email_code_spec (getV : String → Option String)
    (e v : String) :
    retrieve_email_code none getV = ([("error", "Email parameter is required")], 400) ∧
    (pyEndsWith e "-verify" = true → getV e = some v → v ≠ "" →
      retrieve_email_code (some e) getV = ([("verification_code", v)], 200)) ∧
    (pyEndsWith e "-verify" = true → getV e = none →
      retrieve_email_code (some e) getV
        = ([("error", "Verification code not found")], 404)) ∧
    (pyEndsWith e "-activate" = true → pyEndsWith e "-verify" = false →
      getV e = some v → v ≠ "" →
      retrieve_email_code (some e) getV = ([("activation_link", v)], 200)) ∧
    (pyEndsWith e "-activate" = true → pyEndsWith e "-verify" = false →
      getV e = none →
      retrieve_email_code (some e) getV
        = ([("error", "Activation link not found")], 404)) ∧
    (pyEndsWith e "-verify" = false → pyEndsWith e "-activate" = false →
      e ≠ "" →
      retrieve_email_code (some e) getV
        = ([("error", "Invalid email address format")], 400)) := by
  have hne : ∀ suf : String, pyEndsWith e suf = true → suf ≠ "" → e ≠ "" := by
    intro suf hsuf hs he
    subst he
    unfold pyEndsWith at hsuf
    rw [List.isSuffixOf_iff_suffix] at hsuf
    have := List.eq_nil_of_suffix_nil hsuf
    exact hs (by cases suf; simp_all)
  refine ⟨rfl, ?_, ?_, ?_, ?_, ?_⟩
  · intro hv hget hvne
    have he := hne _ hv (by decide)
    simp [retrieve_email_code, he, hv, hget, hvne]
  · intro hv hget
    have he := hne _ hv (by decide)
    simp [retrieve_email_code, he, hv, hget]
  · intro ha hv hget hvne
    have he := hne _ ha (by decide)
    simp [retrieve_email_code, he, hv, ha, hget, hvne]
  · intro ha hv hget
    have he := hne _ ha (by decide)
    simp [retrieve_email_code, he, hv, ha, hget]
  · intro hv ha he
    simp [retrieve_email_code, he, hv, ha]

theorem retrieve_email_code_spec_witness :
    pyEndsWith "user@example.com-verify" "-verify" = true ∧
    retrieve_email_code (some "user@example.com-verify")
        (fun k => if k == "user@example.com-verify" then some "482913" else none)
      = ([("verification_code", "482913")], 200) :=
  ⟨by decide,
   (retrieve_email_code_spec
      (fun k => if k == "user@example.com-verify" then some "482913" else none)
      "user@example.com-verify" "482913").2.1 (by decide) (by decide) (by decide)⟩

/-- Concrete message whose Date header is missing or unparseable. -/
def mNoDate : Msg := ⟨"999999 is your verification code", some "a@b.com", none, []⟩

/-- C5 counterexample: a selected message whose Date header is missing or
malformed is not included and sorted as earliest — instead
`parsedate_to_datetime` raises, the whole pass aborts with the store
untouched, and even this message's own valid verification subject is
never extracted. -/
theorem missing_date_aborts_cex :
    runPass [mNoDate] emptyStore
      = (emptyStore, some "parsedate_to_datetime raised on missing or malformed Date") ∧
    (runPass [mNoDate] emptyStore).1 "a@b.com-verify" = none := by
  constructor <;> rfl

theorem loadEmails_error_of_missing_date (msgs : List Msg)
    (h : ∃ m ∈ msgs, m.dateParsed = none) :
    ∃ e, loadEmails msgs = .error e := by
  induction msgs with
  | nil => obtain ⟨m, hm, _⟩ := h; cases hm
  | cons m0 rest ih =>
    obtain ⟨m, hm, hd⟩ := h
    cases hd0 : m0.dateParsed with
    | none =>
      exact ⟨"parsedate_to_datetime raised on missing or malformed Date",
        by simp [loadEmails, hd0]⟩
    | some d =>
      rcases List.mem_cons.mp hm with rfl | hmr
      · rw [hd0] at hd; cases hd
      · obtain ⟨e, he⟩ := ih ⟨m, hmr, hd⟩
        exact ⟨e, by simp [loadEmails, hd0, he]⟩

/-- C5 as amended: when any selected message's Date header is missing or
malformed, the loading loop raises, so the entire pass fails (to be
retried by the envelope) with the store left exactly as it was; no
message of the pass — dated or not — is processed. -/
theorem missing_date_fails_pass (msgs : List Msg) (s : Store)
    (h : ∃ m ∈ msgs, m.dateParsed = none) :
    ∃ e, runPass msgs s = (s, some e) := by
  obtain ⟨e, he⟩ := loadEmails_error_of_missing_date msgs h
  cases msgs with
  | nil => obtain ⟨m, hm, _⟩ := h; cases hm
  | cons m0 rest => exact ⟨e, by simp [runPass, he]⟩

theorem missing_date_fails_pass_witness :
    (runPass [mNoDate] emptyStore).2.isSome = true := by
  obtain ⟨e, he⟩ := missing_date_fails_pass [mNoDate] emptyStore ⟨mNoDate, by simp, rfl⟩
  rw [he]
  rfl

/-- Concrete message with no To header but a valid verification subject. -/
def mNoTo : Msg := ⟨"111111 is your verification code", none, some 1, []⟩

/-- Concrete well-formed message dated after `mNoTo`. -/
def mSecond : Msg := ⟨"222222 is your verification code", some "b@c.com", some 2, []⟩

/-- C6 counterexample: a message with no To header does not merely get
skipped — the `AttributeError` aborts the batch, so the later,
well-formed message of the same pass is never processed and its code is
never stored. -/
theorem missing_to_aborts_batch_cex :
    (runPass [mNoTo, mSecond] emptyStore).2.isSome = true ∧
    (runPass [mNoTo, mSecond] emptyStore).1 "b@c.com-verify" = none := by
  have hsort : sortByDate [(1, mNoTo), (2, mSecond)] = [(1, mNoTo), (2, mSecond)] :=
    List.mergeSort_of_sorted (by decide)
  have hload : loadEmails [mNoTo, mSecond] = .ok [(1, mNoTo), (2, mSecond)] := rfl
  have hrun : runPass [mNoTo, mSecond] emptyStore
      = processSorted emptyStore (sortByDate [(1, mNoTo), (2, mSecond)]) := by
    simp [runPass, hload]
  rw [hrun, hsort]
  constructor <;> rfl

/-- C6 as amended: a message whose To header is absent raises before any
branch writes, so it never writes a store entry (empty-keyed or
otherwise), but the exception aborts the pass at that message: the
remaining messages of the batch are not processed and the pass ends in
failure (to be retried by the envelope). -/
theorem missing_to_aborts_at_message (m : Msg) (s : Store) (d : Int)
    (l : List (Int × Msg)) (h : m.toHeader = none) :
    (∃ e, msgWrites m = .error e) ∧
    (∃ e, processSorted s ((d, m) :: l) = (s, some e)) := by
  have hw : msgWrites m
      = .error "AttributeError: NoneType object has no attribute lower" := by
    unfold msgWrites
    rw [h]
  exact ⟨⟨_, hw⟩,
    ⟨"AttributeError: NoneType object has no attribute lower",
     by simp [processSorted, hw]⟩⟩

theorem missing_to_aborts_at_message_witness :
    (processSorted emptyStore [(1, mNoTo), (2, mSecond)]).2.isSome = true := by
  obtain ⟨e, he⟩ := (missing_to_aborts_at_message mNoTo emptyStore 1 [(2, mSecond)] rfl).2
  rw [he]
  rfl

/-- C7 counterexample: when `connect_to_imap` returns no session, the loop
hits `continue` — no 5-second inter-attempt delay is slept and, after the
last attempt, no final-failure log is emitted — unlike a stage failure
inside the try block, which does sleep between attempts.  So a
connection failure is not treated identically to other stage failures. -/
theorem connect_fail_no_delay_cex :
    fetchEmailsTrace (fun _ => .noSession)
      = [[.connectFailLog], [.connectFailLog], [.connectFailLog]] ∧
    fetchEmailsTrace (fun _ => .passFail)
      = [[.errorLog, .sleep 5, .logout], [.errorLog, .sleep 5, .logout],
         [.errorLog, .failedAllLog, .logout]] :=
  ⟨rfl, rfl⟩

theorem runAttempts_length_le (f : Nat → AttemptOutcome) :
    ∀ fuel a, (runAttempts f fuel a).length ≤ fuel := by
  intro fuel
  induction fuel with
  | zero => intro a; simp [runAttempts]
  | succ n ih =>
    intro a
    simp only [runAttempts]
    cases f a <;> simp only [List.length_cons, List.length_nil]
    · exact Nat.succ_le_succ (ih (a + 1))
    · exact Nat.succ_le_succ (ih (a + 1))
    · exact Nat.succ_le_succ (Nat.zero_le n)

/-- C7 as amended: a stage failure inside the try block is retried with a
fresh connection up to the fixed budget of 3 attempts, with the fixed
5-second delay slept between attempts (but not after the last, where the
exhaustion is logged instead), and control then returns to the
scheduler; a connection failure (no session) is also retried up to the
same budget, but immediately — without the inter-attempt delay — and
without the exhaustion log when all attempts fail to connect. -/
theorem retry_loop_behavior (f : Nat → AttemptOutcome) :
    (fetchEmailsTrace f).length ≤ retriesBudget ∧
    ((∀ i, f i = .noSession) →
      fetchEmailsTrace f = [[.connectFailLog], [.connectFailLog], [.connectFailLog]]) ∧
    ((∀ i, f i = .passFail) →
      fetchEmailsTrace f
        = [[.errorLog, .sleep retryDelaySeconds, .logout],
           [.errorLog, .sleep retryDelaySeconds, .logout],
           [.errorLog, .failedAllLog, .logout]]) ∧
    (f 0 = .passOk → fetchEmailsTrace f = [[.passDone, .logout]]) := by
  refine ⟨runAttempts_length_le f retriesBudget 0, ?_, ?_, ?_⟩
  · intro h
    simp [fetchEmailsTrace, retriesBudget, runAttempts, h 0, h 1, h 2, attemptEvents]
  · intro h
    simp [fetchEmailsTrace, retriesBudget, retryDelaySeconds, runAttempts,
      h 0, h 1, h 2, attemptEvents]
  · intro h
    simp [fetchEmailsTrace, retriesBudget, runAttempts, h, attemptEvents]

theorem retry_loop_behavior_witness :
    fetchEmailsTrace (fun _ => .passFail)
      = [[.errorLog, .sleep retryDelaySeconds, .logout],
         [.errorLog, .sleep retryDelaySeconds, .logout],
         [.errorLog, .failedAllLog, .logout]] :=
  (retry_loop_behavior (fun _ => .passFail)).2.2.1 (fun _ => rfl)

/-- Commands that change mailbox state when issued explicitly. -/
def isExplicitMutation : ImapCmd → Bool
  | .storeFlag _ _ => true
  | .expunge => true
  | _ => false

theorem applyCmds_fetches (mb : List MailMsg) (ids : List Nat) :
    applyCmds mb (ids.map ImapCmd.fetchCmd)
      = mb.map (fun mm =>
          if ids.contains mm.uid then { mm with seen := true } else mm) := by
  induction ids generalizing mb with
  | nil =>
    simp only [List.map_nil, applyCmds, List.foldl_nil]
    have hid : ∀ mm : MailMsg,
        (if ([] : List Nat).contains mm.uid then { mm with seen := true } else mm)
          = mm := by
      intro mm
      rfl
    simp [hid]
  | cons i rest ih =>
    simp only [List.map_cons, applyCmds, List.foldl_cons] at ih ⊢
    have hstep : applyCmd mb (ImapCmd.fetchCmd i)
        = mb.map (fun mm => if mm.uid == i then { mm with seen := true } else mm) := rfl
    rw [hstep, ih, List.map_map]
    apply List.map_congr_left
    intro mm _
    by_cases h : mm.uid = i
    · simp [Function.comp, h, List.contains_cons]
    · simp [Function.comp, h, List.contains_cons]

theorem searchUnseen_after_fetches (mb : List MailMsg) (js : List Nat)
    (hjs : ∀ u, u ∈ searchUnseen mb → u ∈ js) :
    searchUnseen (mb.map (fun mm =>
      if js.contains mm.uid then { mm with seen := true } else mm)) = [] := by
  unfold searchUnseen
  rw [List.map_eq_nil_iff, List.filter_eq_nil_iff]
  intro mm2 hmm2
  rw [List.mem_map] at hmm2
  obtain ⟨mm, hmm, rfl⟩ := hmm2
  cases hc : js.contains mm.uid with
  | true => simp [hc]
  | false =>
    simp only [hc, Bool.false_eq_true, if_false, Bool.not_eq_true]
    cases hp : (!mm.seen && mm.matchesQuery) with
    | false => rfl
    | true =>
      have hmem : mm.uid ∈ searchUnseen mb :=
        List.mem_map_of_mem _ (List.mem_filter.mpr ⟨hmm, hp⟩)
      have hcm : js.contains mm.uid = true := by simpa using hjs mm.uid hmem
      rw [hcm] at hc
      cases hc

/-- C10 counterexample: concrete one-message mailbox, unseen and matching
the search.  One pass fetching it does mutate mailbox state (the
non-PEEK `'(RFC822)'` fetch implicitly sets `\Seen`), so the message
does not remain unread and the next pass's unseen search no longer
selects it. -/
theorem fetch_marks_seen_cex :
    searchUnseen [⟨1, false, false, true⟩] = [1] ∧
    applyCmds [⟨1, false, false, true⟩] (fetchPassCmds [1]) = [⟨1, true, false, true⟩] ∧
    applyCmds [⟨1, false, false, true⟩] (fetchPassCmds [1]) ≠ [⟨1, false, false, true⟩] ∧
    searchUnseen (applyCmds [⟨1, false, false, true⟩] (fetchPassCmds [1])) = [] := by
  refine ⟨rfl, rfl, ?_, rfl⟩
  decide

/-- C10 as amended: a `fetch_emails` pass issues no explicit
flag-mutation or expunge command (the mark-as-seen block of
lines 115-119 is commented out and nothing is deleted), but its
non-PEEK `'(RFC822)'` fetches implicitly set `\Seen` on every fetched
message, so the mailbox after a pass is the original with the fetched
identifiers marked seen — and a pass that fetches exactly the unseen
search result leaves the next unseen search empty: the same messages
are not re-selected. -/
theorem fetch_pass_marks_seen (ids : List Nat) (mb : List MailMsg) :
    (fetchPassCmds ids).all (fun c => !isExplicitMutation c) = true ∧
    applyCmds mb (fetchPassCmds ids)
      = mb.map (fun mm =>
          if ids.contains mm.uid then { mm with seen := true } else mm) ∧
    searchUnseen (applyCmds mb (fetchPassCmds (searchUnseen mb))) = [] := by
  have hmain : ∀ js : List Nat, applyCmds mb (fetchPassCmds js)
      = mb.map (fun mm =>
          if js.contains mm.uid then { mm with seen := true } else mm) := by
    intro js
    have hsplit : applyCmds mb (fetchPassCmds js)
        = applyCmds mb (js.map ImapCmd.fetchCmd) := by
      simp only [fetchPassCmds, applyCmds, List.foldl_append, List.foldl_cons,
        List.foldl_nil]
      rfl
    rw [hsplit, applyCmds_fetches]
  refine ⟨?_, hmain ids, ?_⟩
  · have hall : ∀ js : List Nat,
        (js.map ImapCmd.fetchCmd).all (fun c => !isExplicitMutation c) = true := by
      intro js
      induction js with
      | nil => rfl
      | cons j rest ih2 => simp [isExplicitMutation, ih2]
    simp [fetchPassCmds, List.all_append, isExplicitMutation, hall ids]
  · rw [hmain (searchUnseen mb)]
    exact searchUnseen_after_fetches mb (searchUnseen mb) (fun u hu => hu)

theorem loadEmails_ok_of_dates (msgs : List Msg)
    (h : ∀ m ∈ msgs, (m.dateParsed).isSome = true) :
    ∃ l, loadEmails msgs = .ok l := by
  induction msgs with
  | nil => exact ⟨[], rfl⟩
  | cons m0 rest ih =>
    obtain ⟨l, hl⟩ := ih (fun m hm => h m (List.mem_cons_of_mem _ hm))
    cases hd : m0.dateParsed with
    | none =>
      have := h m0 (List.mem_cons_self _ _)
      rw [hd] at this
      cases this
    | some d => exact ⟨(d, m0) :: l, by simp [loadEmails, hd, hl]⟩

theorem loadEmails_ok_spec (msgs : List Msg) (l : List (Int × Msg))
    (h : loadEmails msgs = .ok l) :
    l.map Prod.snd = msgs ∧ ∀ p ∈ l, p.2.dateParsed = some p.1 := by
  induction msgs generalizing l with
  | nil =>
    simp only [loadEmails] at h
    cases h
    simp
  | cons m0 rest ih =>
    simp only [loadEmails] at h
    cases hd : m0.dateParsed with
    | none => rw [hd] at h; cases h
    | some d =>
      rw [hd] at h
      cases hrest : loadEmails rest with
      | error e => rw [hrest] at h; cases h
      | ok l2 =>
        rw [hrest] at h
        cases h
        obtain ⟨ih1, ih2⟩ := ih l2 hrest
        refine ⟨by simp [ih1], ?_⟩
        intro p hp
        rcases List.mem_cons.mp hp with rfl | hp2
        · exact hd
        · exact ih2 p hp2

theorem lookupLast_passWrites_only (l : List (Int × Msg)) (m : Msg) (k : String)
    (h : ∀ p ∈ l, writesKey p.2 k = true → p.2 = m) :
    lookupLast (passWrites l) k = none ∨
    lookupLast (passWrites l) k = msgFinalVal m k := by
  induction l with
  | nil => left; rfl
  | cons p rest ih =>
    have hrest := ih (fun q hq hw => h q (List.mem_cons_of_mem _ hq) hw)
    obtain ⟨d0, m0⟩ := p
    simp only [passWrites]
    rw [lookupLast_append]
    cases hr : lookupLast (passWrites rest) k with
    | some v =>
      rcases hrest with hnone | heq
      · rw [hr] at hnone; cases hnone
      · rw [hr] at heq; right; rw [← heq]
    | none =>
      cases hw : writesKey m0 k with
      | true =>
        have hm0 : m0 = m := h (d0, m0) (List.mem_cons_self _ _) hw
        right
        rw [hm0]
        rfl
      | false =>
        left
        have hws : (msgFinalVal m0 k).isSome = false := hw
        cases hvv : msgFinalVal m0 k with
        | none => exact hvv
        | some v => rw [hvv] at hws; cases hws

theorem lookupLast_passWrites_latest (m : Msg) (dm : Int) (k v : String)
    (hv : msgFinalVal m k = some v) :
    ∀ l : List (Int × Msg),
      List.Pairwise (fun a b : Int × Msg => a.1 ≤ b.1) l →
      (dm, m) ∈ l →
      (∀ p ∈ l, writesKey p.2 k = true → (p.2 = m ∧ p.1 = dm) ∨ p.1 < dm) →
      lookupLast (passWrites l) k = some v := by
  intro l
  induction l with
  | nil => intro _ hmem _; cases hmem
  | cons p rest ih =>
    intro hsorted hmem hmax
    obtain ⟨d0, m0⟩ := p
    rw [List.pairwise_cons] at hsorted
    obtain ⟨hhead, htail⟩ := hsorted
    simp only [passWrites]
    rw [lookupLast_append]
    rcases List.mem_cons.mp hmem with heq | hmemr
    · injection heq with h1 h2
      subst h1
      subst h2
      have hall : ∀ q ∈ rest, writesKey q.2 k = true → q.2 = m := by
        intro q hq hw
        rcases hmax q (List.mem_cons_of_mem _ hq) hw with ⟨hqm, _⟩ | hlt
        · exact hqm
        · exact absurd hlt (not_lt.mpr (hhead q hq))
      rcases lookupLast_passWrites_only rest m k hall with hnone | heqv
      · rw [hnone]
        exact hv
      · rw [heqv, hv]
    · have hres := ih htail hmemr (fun q hq hw => hmax q (List.mem_cons_of_mem _ hq) hw)
      rw [hres]

/-- C1: processing is oldest-first on the parsed Date timestamp, so when a
pass succeeds, the value left in the store under any key equals the
final value written by the message with the strictly latest timestamp
among the messages that write that key — whatever order the server
returned the identifiers in. -/
theorem latest_message_wins (msgs : List Msg) (s : Store) (k : String)
    (m : Msg) (dm : Int) (v : String)
    (hmem : m ∈ msgs)
    (hdm : m.dateParsed = some dm)
    (hdates : ∀ m2 ∈ msgs, (m2.dateParsed).isSome = true)
    (hok : ∀ m2 ∈ msgs, ∃ ws, msgWrites m2 = .ok ws)
    (hv : msgFinalVal m k = some v)
    (hmax : ∀ m2 ∈ msgs, ∀ d2, m2.dateParsed = some d2 →
      writesKey m2 k = true → m2 = m ∨ d2 < dm) :
    (runPass msgs s).1 k = some v ∧ (runPass msgs s).2 = none := by
  obtain ⟨l, hl⟩ := loadEmails_ok_of_dates msgs hdates
  obtain ⟨hmap, hdspec⟩ := loadEmails_ok_spec msgs l hl
  have hperm : (sortByDate l).Perm l := List.mergeSort_perm l dateLe
  have hmemL : ∀ p ∈ sortByDate l, p.2 ∈ msgs := by
    intro p hp
    rw [← hmap]
    exact List.mem_map_of_mem Prod.snd (hperm.mem_iff.mp hp)
  have hsorted : List.Pairwise (fun a b : Int × Msg => a.1 ≤ b.1) (sortByDate l) := by
    have htrans : ∀ a b c : Int × Msg,
        dateLe a b = true → dateLe b c = true → dateLe a c = true := by
      intro a b c
      simp only [dateLe, decide_eq_true_eq]
      omega
    have htotal : ∀ a b : Int × Msg, (dateLe a b || dateLe b a) = true := by
      intro a b
      simp only [dateLe, Bool.or_eq_true, decide_eq_true_eq]
      omega
    exact (List.sorted_mergeSort htrans htotal l).imp
      (fun h => by simpa [dateLe] using h)
  have hpair : (dm, m) ∈ sortByDate l := by
    rw [hperm.mem_iff]
    rw [← hmap] at hmem
    obtain ⟨p, hpL, hpsnd⟩ := List.mem_map.mp hmem
    obtain ⟨d0, m0⟩ := p
    simp only at hpsnd
    subst hpsnd
    have hdp := hdspec (d0, m0) hpL
    rw [hdm] at hdp
    injection hdp with hd0
    rw [hd0]
    exact hpL
  have hokS : ∀ p ∈ sortByDate l, ∃ ws, msgWrites p.2 = .ok ws :=
    fun p hp => hok p.2 (hmemL p hp)
  have hmaxS : ∀ p ∈ sortByDate l,
      writesKey p.2 k = true → (p.2 = m ∧ p.1 = dm) ∨ p.1 < dm := by
    intro p hp hw
    have hdp : p.2.dateParsed = some p.1 := hdspec p (hperm.mem_iff.mp hp)
    rcases hmax p.2 (hmemL p hp) p.1 hdp hw with hpm | hlt
    · left
      refine ⟨hpm, ?_⟩
      rw [hpm] at hdp
      rw [hdm] at hdp
      injection hdp with h
      exact h.symm
    · right
      exact hlt
  have hlook := lookupLast_passWrites_latest m dm k v hv (sortByDate l)
    hsorted hpair hmaxS
  have hrun : runPass msgs s = (applyWrites s (passWrites (sortByDate l)), none) := by
    cases msgs with
    | nil => cases hmem
    | cons m0 rest =>
      simp only [runPass, hl]
      exact processSorted_ok (sortByDate l) s hokS
  rw [hrun]
  refine ⟨?_, rfl⟩
  show applyWrites s (passWrites (sortByDate l)) k = some v
  rw [applyWrites_apply, hlook]



/-- Older verification message for the C1 scenario (timestamp 1). -/
def mOldC1 : Msg := ⟨"111111 is your verification code", some "U@E.com", some 1, []⟩

/-- Newer verification message for the C1 scenario (timestamp 2); the
server returns it first, i.e. out of chronological order. -/
def mNewC1 : Msg := ⟨"222222 is your verification code", some "U@E.com", some 2, []⟩

theorem latest_message_wins_witness :
    (runPass [mNewC1, mOldC1] emptyStore).1 "u@e.com-verify" = some "222222" ∧
    (runPass [mNewC1, mOldC1] emptyStore).2 = none :=
  latest_message_wins [mNewC1, mOldC1] emptyStore "u@e.com-verify" mNewC1 2 "222222"
    (List.mem_cons_self _ _) rfl (by decide)
    (by
      intro m2 hm2
      rcases List.mem_cons.mp hm2 with rfl | hm2b
      · exact ⟨_, rfl⟩
      · rcases List.mem_cons.mp hm2b with rfl | h3
        · exact ⟨_, rfl⟩
        · cases h3)
    rfl
    (by
      intro m2 hm2 d2 hd2 hw
      rcases List.mem_cons.mp hm2 with rfl | hm2b
      · exact Or.inl rfl
      · rcases List.mem_cons.mp hm2b with rfl | h3
        · right
          have h1 : mOldC1.dateParsed = some 1 := rfl
          rw [h1] at hd2
          injection hd2 with hh
          omega
        · cases h3)


end EmailHandler
